import Mathlib

/-!
# Verification of the Helios autonomous agent orchestration loop

Shallow embedding of `autonomous/agent.py`: the progress store
(`load_progress` / `save_progress`), the prompt selection functions
(`get_task_prompt` / `get_continuation_prompt`), the session executor
(`run_claude_session`) and the main orchestration loop (`main`), together
with theorems checking the natural-language specification against them.

Modelling conventions:
* Python `int` is `Int`; Python strings are `String`.
* The external `claude` subprocess is an oracle: each loop pass that reaches
  `subprocess.run` consumes one `SubprocessResult` from a finite trace.
* `json.load` / file-system state is abstracted into `JsonFile`: the file is
  absent, exists but does not parse (this includes the empty file, on which
  Python's `json.load` raises `JSONDecodeError`), or parses to a progress
  dictionary.
* Wall-clock readings by `time.strftime` are abstracted to a tick index
  rendered as a string; no claim depends on timestamp values.
-/

set_option maxRecDepth 4000

/-! ## Python string membership (`needle in haystack`) -/

/-- Occurrence of `n` as a contiguous sublist of `h` (Python `in` on `str`). -/
def occursIn (n : List Char) : List Char → Bool
  | [] => n.isEmpty
  | c :: t => n.isPrefixOf (c :: t) || occursIn n t

/-- Python `sub in s` for strings. -/
def pyIn (sub s : String) : Bool :=
  occursIn sub.data s.data

/-! ## JSON values (for the queued `next_task` payload) -/

/-- JSON values, used for the structured `next_task` payload. -/
inductive JsonVal where
  | null
  | bool (b : Bool)
  | num (n : Int)
  | str (s : String)
  | arr (elems : List JsonVal)
  | obj (fields : List (String × JsonVal))

/-- Python truthiness of a JSON-decoded value (`None`, `0`, `""`, `[]`, `{}`
are falsy). -/
def JsonVal.truthy : JsonVal → Bool
  | .null => false
  | .bool b => b
  | .num n => n != 0
  | .str s => !(s == "")
  | .arr es => !es.isEmpty
  | .obj fs => !fs.isEmpty

/-- `dict.get(k)` on a decoded JSON object: `none` when the key is absent.
The code only calls `.get` after a truthiness check on a value that is a
JSON object in every intended use; a non-object value (on which Python
would raise `AttributeError`) is treated as having no keys. -/
def JsonVal.getKey : JsonVal → String → Option JsonVal
  | .obj fields, k => (fields.find? (fun f => f.1 == k)).map (·.2)
  | _, _ => none

/-- `task.get(k) == v` for a string literal `v` (Python `None == v` is false,
and equality between a non-string value and a string is false). -/
def JsonVal.getEqStr (j : JsonVal) (k v : String) : Bool :=
  match j.getKey k with
  | some (.str s) => s == v
  | _ => false

/-- Compact rendering of a JSON value. Abstracts Python's
`json.dumps(..., indent=2)`: the orchestration logic only relies on the
payload being rendered verbatim into the instruction text, never on the
exact whitespace. -/
def dumpsJson : JsonVal → String
  | .null => "null"
  | .bool true => "true"
  | .bool false => "false"
  | .num n => toString n
  | .str s => "\"" ++ s ++ "\""
  | .arr es => "[" ++ String.intercalate ", " (es.attach.map (fun e => dumpsJson e.1)) ++ "]"
  | .obj fs => "\x7b" ++ String.intercalate ", "
      (fs.attach.map (fun f => "\"" ++ f.1.1 ++ "\": " ++ dumpsJson f.1.2)) ++ "\x7d"
decreasing_by
  all_goals simp_wf
  · have := List.sizeOf_lt_of_mem e.2
    omega
  · rcases f with ⟨⟨k, v⟩, hm⟩
    have := List.sizeOf_lt_of_mem hm
    simp at this ⊢
    omega

/-- `task.get(k, default)` rendered into an f-string: a string value is used
as-is; a non-string value is rendered (abstracting Python's `str()`). -/
def JsonVal.getStrD (j : JsonVal) (k dflt : String) : String :=
  match j.getKey k with
  | some (.str s) => s
  | some v => dumpsJson v
  | none => dflt

/-! ## Configuration constants (agent.py lines 27-29, 152) -/

/-- `AUTO_CONTINUE_DELAY = 3` — seconds between sessions. -/
def AUTO_CONTINUE_DELAY : Int := 3

/-- `timeout=1800` — 30-minute wall-clock limit per session. -/
def SESSION_TIMEOUT_SECONDS : Int := 1800

/-! ## Progress store (`load_progress` / `save_progress`) -/

/-- The progress dictionary persisted in `autonomous/progress.json`.
Each field is `none` when the key is absent from the dictionary; an inner
`none` models an explicit JSON `null`. For `next_task`, an absent key and a
`null` value lead to identical behaviour (`dict.get` returns `None` for
both), so both are folded into `none`. -/
structure ProgressDict where
  iterations : Option Int
  tasks_completed : Option (List String)
  current_task : Option (Option String)
  started_at : Option (Option String)
  last_session : Option (Option String)
  next_task : Option JsonVal

/-- The default dictionary returned by `load_progress` when no file exists
(agent.py lines 106-112). Note it has no `next_task` key. -/
def default_progress : ProgressDict :=
  { iterations := some 0
    tasks_completed := some []
    current_task := some none
    started_at := some none
    last_session := some none
    next_task := none }

/-- Errors a Python expression in the orchestration core can raise. -/
inductive PyError where
  | keyError (key : String)
  | jsonDecodeError
deriving Repr, DecidableEq

/-- State of the progress file on disk. `unparseable` covers every existing
file whose contents `json.load` rejects — in particular the empty file. -/
inductive JsonFile where
  | absent
  | unparseable
  | parsed (d : ProgressDict)

/-- `load_progress()` (agent.py lines 100-112): return the parsed file if it
exists — letting any `json.JSONDecodeError` propagate — else the default. -/
def load_progress : JsonFile → Except PyError ProgressDict
  | .absent => .ok default_progress
  | .unparseable => .error .jsonDecodeError
  | .parsed d => .ok d

/-- `save_progress(progress)` (agent.py lines 115-120): the file now holds
exactly the serialized dictionary. -/
def save_progress (progress : ProgressDict) : JsonFile :=
  .parsed progress

/-! ## Session executor (`run_claude_session`, agent.py lines 123-183) -/

/-- What the spawned subprocess did: ran to completion with a return code,
stdout and stderr; exceeded the 1800-second timeout; or failed to
spawn/communicate, raising an `Exception` rendered as `message`. -/
inductive SubprocessResult where
  | completed (returncode : Int) (stdout stderr : String)
  | timedOut
  | errored (message : String)

/-- Lines 155-157: `output = result.stdout`, with stderr appended under a
delimiter when non-empty. -/
def renderOutput (stdout stderr : String) : String :=
  if stderr == "" then stdout else stdout ++ "\n\nSTDERR:\n" ++ stderr

/-- `run_claude_session` (agent.py lines 145-183), as a total function on the
subprocess oracle: normal completion returns `(returncode, output)`;
`subprocess.TimeoutExpired` is caught and mapped to `(1, "TIMEOUT")`; any
other `Exception` is caught and mapped to `(1, str(e))`. -/
def run_claude_session : SubprocessResult → Int × String
  | .completed rc out err => (rc, renderOutput out err)
  | .timedOut => (1, "TIMEOUT")
  | .errored msg => (1, msg)

/-- Python `str.lower()` (ASCII-relevant behaviour; every marker involved is
ASCII). Implemented on the character list so that it evaluates by kernel
reduction. -/
def pyLower (s : String) : String :=
  ⟨s.data.map Char.toLower⟩

/-- The completion check at agent.py line 466:
`"TASK COMPLETE" in output or "All done" in output.lower()`. -/
def completion_marker_found (output : String) : Bool :=
  pyIn "TASK COMPLETE" output || pyIn "All done" (pyLower output)


/-! ## Prompt selection (agent.py lines 186-373)

The three instruction templates, transcribed verbatim from the source
f-strings. Literal braces are written `\x7b` / `\x7d` and apostrophes
`\x27`; interpolations become string concatenation. -/

/-- `get_task_prompt(task)` (agent.py lines 353-373). -/
def get_task_prompt (task : String) : String :=
  "You are working on the Helios Client Portal.\n\n## Your Specific Task\n\n"
  ++ task ++
  "\n\n## Guidelines\n\n- Focus ONLY on this task\n- Test your changes work\n- Commit when complete with a descriptive message\n- Update any relevant documentation\n\n## Context\n\nRead CLAUDE.md for project conventions.\nThis is a single-organization portal (NOT multi-tenant).\n\nBegin by understanding what needs to be done, then implement it."

/-- The default continuation instruction (agent.py lines 303-350). -/
def continuation_default_text : String :=
  "You are continuing autonomous development on the Helios Client Portal.\n\n## CRITICAL: Read Rules First\n\n**Before making ANY code changes, read these files:**\n1. `AGENT-RULES.md` - Database schema, API scopes, testing requirements\n2. `CLAUDE.md` - Project conventions and constraints\n\n## First: Orient Yourself\n\n1. Check autonomous/progress.json for any queued tasks\n2. Check git status to see what\x27s changed\n3. Review the TODO list or recent commits\n4. Check for any failing tests or build errors\n\n## Your Task\n\nContinue implementing features or fixing issues based on:\n1. Any next_task in autonomous/progress.json\n2. Open OpenSpec proposals in openspec/changes/\n3. Issues mentioned in PROJECT-TRACKER-V2.md\n4. TypeScript/build errors that need fixing\n\n## Testing Google Workspace\n\nTest credentials are at `backend/.secrets/test-service-account.json`\n- Domain: gridworx.io\n- Admin: mike@gridworx.io\n- Always test API calls before committing changes\n\n## Guidelines\n\n- Work on ONE task at a time\n- Commit your work frequently with clear messages\n- Update TODO/progress files as you complete tasks\n- VERIFY database table/column names before writing queries\n- Use FULL OAuth scopes, not readonly versions\n- If you get stuck, document the issue and move on\n\n## When Done\n\nBefore ending:\n1. Ensure the build passes (npm run build in frontend/backend)\n2. Test Google Workspace integration if you touched that code\n3. Commit all changes\n4. Update progress tracking\n\nBegin by reading AGENT-RULES.md, then check the current state of the project."

/-- The bug-fix instruction (agent.py lines 196-253) with the serialized
task payload embedded where the f-string interpolates `task_json`. -/
def bug_fix_text (task_json : String) : String :=
  "You are fixing critical bugs in the Helios Client Portal.\n\n## CRITICAL: Read Rules First\n\n**Before making ANY code changes, read `AGENT-RULES.md`**\n\n## Bug Fix Task\n\n"
  ++ task_json ++
  "\n\n## Your Approach\n\n1. **First, verify the test environment works:**\n   - Load the service account from the path specified\n   - Test API connection to Google Workspace\n   - Confirm you can list users from the test domain\n\n2. **Fix bugs one at a time:**\n   - Start with BUG-001 (module not enabled)\n   - Trace the code flow from frontend → API → database\n   - Add logging if needed to debug\n   - Fix the issue\n   - Test by making API calls and checking database\n\n3. **Verify each fix:**\n   - Run the SQL verification queries\n   - Make actual API calls to test endpoints\n   - Check the database state matches expectations\n\n4. **Only commit when ALL bugs are fixed and tested**\n\n## Database Quick Reference\n\nTables: `modules`, `organization_modules`, `gw_credentials`, `gw_synced_users`\nColumns in modules: `id`, `name`, `slug` (NOT module_key!)\n\n## Testing Commands\n\n```bash\n# Test API connection\ncd backend && npx ts-node -e \"\nconst \x7b google \x7d = require(\x27googleapis\x27);\nconst fs = require(\x27fs\x27);\nconst sa = JSON.parse(fs.readFileSync(\x27.secrets/test-service-account.json\x27));\nconst auth = new google.auth.JWT(\x7b\n  email: sa.client_email,\n  key: sa.private_key,\n  scopes: [\x27https://www.googleapis.com/auth/admin.directory.user\x27],\n  subject: \x27mike@gridworx.io\x27\n\x7d);\nauth.authorize().then(() => console.log(\x27API OK\x27)).catch(e => console.error(e));\n\"\n\n# Check database state\ndocker exec helios_client_postgres psql -U postgres -d helios_client -c \"SELECT * FROM organization_modules;\"\n```\n\nBegin by reading AGENT-RULES.md, then verify the test environment works."

/-- The proposal-implementation instruction (agent.py lines 261-300). -/
def openspec_text (proposal_path approach instructions : String) : String :=
  "You are continuing autonomous development on the Helios Client Portal.\n\n## PRIORITY TASK: OpenSpec Implementation\n\nThere is a staged OpenSpec proposal ready for implementation:\n\n**Proposal:** "
  ++ proposal_path ++
  "\n**Approach:** "
  ++ approach ++
  "\n**Instructions:** "
  ++ instructions ++
  "\n\n### Your Steps:\n\n1. **Read the proposal files:**\n   - `"
  ++ proposal_path ++
  "/proposal.md` - Understand the goal\n   - `"
  ++ proposal_path ++
  "/design.md` - Technical approach\n   - `"
  ++ proposal_path ++
  "/tasks.md` - Specific tasks to complete\n\n2. **Follow TDD approach:**\n   - Write E2E tests FIRST (before implementation)\n   - Run tests to verify they fail\n   - Implement the changes\n   - Run tests to verify they pass\n\n3. **Mark tasks complete:**\n   - Check off tasks in tasks.md as you complete them\n   - Commit atomically per task group\n\n4. **When done:**\n   - All tests pass\n   - All tasks checked off\n   - Update autonomous/progress.json to remove next_task\n\n## Guidelines\n\n- Follow the OpenSpec proposal exactly\n- Use test-driven development\n- Commit frequently with descriptive messages\n- Do NOT deviate from the proposal scope\n\nBegin by reading the proposal files."

/-- `get_continuation_prompt(progress)` (agent.py lines 186-350): dispatch on
the queued `next_task` — the bug-fix instruction for `type == "bug_fix"`,
the proposal instruction for `type == "openspec"`, else the default
continuation instruction. `progress.get("next_task")` yields `None` both
for an absent key and a JSON `null`; both are `none` here. -/
def get_continuation_prompt (progress : ProgressDict) : String :=
  match progress.next_task with
  | some next_task =>
    if next_task.truthy && next_task.getEqStr "type" "bug_fix" then
      bug_fix_text (dumpsJson next_task)
    else if next_task.truthy && next_task.getEqStr "type" "openspec" then
      openspec_text (next_task.getStrD "proposal" "")
        (next_task.getStrD "approach" "implement")
        (next_task.getStrD "instructions" "")
    else continuation_default_text
  | none => continuation_default_text

/-! ## Orchestrator loop (`main`, agent.py lines 376-490)

Authentication probing, settings-file generation and argument parsing are
external collaborators per the spec; the loop itself is embedded below.
`time.strftime` readings are abstracted as `nowStamp` of a tick index. -/

/-- Parsed command-line arguments that reach the loop. -/
structure Args where
  max_iterations : Option Int
  task : Option String
  dry_run : Bool

/-- Abstracted `time.strftime("%Y-%m-%d %H:%M:%S")` reading at tick `n`. -/
def nowStamp (n : Int) : String :=
  toString n

/-- Observable actions of one run, in order: a session executed with an
instruction, a `save_progress` write, or a `time.sleep`. -/
inductive Event where
  | session (instruction : String) (exitCode : Int) (output : String)
  | saved (progress : ProgressDict)
  | slept (seconds : Int)

/-- How the modelled portion of a run ended. `traceEnd` means the loop was
still running when the finite subprocess trace was exhausted (the real loop
would continue); all other constructors carry the in-memory progress at exit
and the disk state after the `finally: save_progress(progress)` block.
A `startupCrash` happens before the `try`, so nothing is saved. -/
inductive RunOutcome where
  | dryRun (instruction : String)
  | startupCrash (e : PyError)
  | maxedOut (progress : ProgressDict) (disk : JsonFile)
  | taskDone (progress : ProgressDict) (disk : JsonFile)
  | crashed (e : PyError) (progress : ProgressDict) (disk : JsonFile)
  | traceEnd (progress : ProgressDict) (instruction : String) (disk : JsonFile)

/-- Lines 426-434: load progress (a parse failure propagates), read
`started_at` (KeyError if the key is absent) and set it if `None`, then pin
the explicit task and pick the initial instruction. -/
def startup (task : Option String) (now : String) (disk : JsonFile) :
    Except PyError (ProgressDict × String) :=
  match load_progress disk with
  | .error e => .error e
  | .ok progress0 =>
    match progress0.started_at with
    | none => .error (.keyError "started_at")
    | some sa =>
      let progress :=
        match sa with
        | none => { progress0 with started_at := some (some now) }
        | some _ => progress0
      match task with
      | some t =>
          .ok ({ progress with current_task := some (some t) }, get_task_prompt t)
      | none => .ok (progress, get_continuation_prompt progress)

/-- Line 449: `if args.max_iterations and iteration > args.max_iterations` —
`None` and `0` are falsy, so only a non-zero configured ceiling is checked. -/
def ceiling_hit (max_iterations : Option Int) (iteration : Int) : Bool :=
  match max_iterations with
  | none => false
  | some m => m != 0 && iteration > m

/-- Lines 446-451 up to the ceiling check: `progress["iterations"] += 1`
(KeyError when the key is absent — the read happens before the store), then
whether the ceiling break fires for this pass's `iteration` value. -/
def prePass (max_iterations : Option Int) (iteration : Int)
    (progress : ProgressDict) : Except PyError (ProgressDict × Bool) :=
  match progress.iterations with
  | none => .error (.keyError "iterations")
  | some n =>
      .ok ({ progress with iterations := some (n + 1) }, ceiling_hit max_iterations iteration)

/-- Result of the post-ceiling part of one loop pass. -/
inductive PhaseOut where
  | nextPass (progress : ProgressDict) (instruction : String) (disk : JsonFile)
  | taskComplete (progress : ProgressDict) (disk : JsonFile)
  | raised (e : PyError) (progress : ProgressDict) (disk : JsonFile)

/-- Lines 455-478: run the session, stamp and save `last_session`, then
either back off on failure (double delay), break on a completion marker with
a pinned task (appending it and saving), or sleep the base delay; finally
reload progress from disk and recompute the continuation instruction. -/
def sessionPhase (task : Option String) (progress : ProgressDict)
    (instruction : String) (r : SubprocessResult) (now : String) :
    List Event × PhaseOut :=
  let ec := (run_claude_session r).1
  let output := (run_claude_session r).2
  let progress := { progress with last_session := some (some now) }
  let disk := save_progress progress
  let headEvents := [Event.session instruction ec output, Event.saved progress]
  let continueAfter : Int → List Event × PhaseOut := fun delay =>
    match load_progress disk with
    | .ok reloaded =>
        (headEvents ++ [Event.slept delay],
         .nextPass reloaded (get_continuation_prompt reloaded) disk)
    | .error e => (headEvents ++ [Event.slept delay], .raised e progress disk)
  if ec != 0 then
    continueAfter (AUTO_CONTINUE_DELAY * 2)
  else
    if completion_marker_found output then
      match task with
      | some t =>
          match progress.tasks_completed with
          | some done =>
              let progress2 := { progress with tasks_completed := some (done ++ [t]) }
              (headEvents ++ [Event.saved progress2],
               .taskComplete progress2 (save_progress progress2))
          | none => (headEvents, .raised (.keyError "tasks_completed") progress disk)
      | none => continueAfter AUTO_CONTINUE_DELAY
    else continueAfter AUTO_CONTINUE_DELAY

/-- The `while True` loop (lines 445-478) over a finite subprocess trace,
including the `finally: save_progress(progress)` of lines 484-486 on every
exit path inside the `try`. `iteration` is the local counter's value before
the pass. When the trace is exhausted the loop is still running and no
`finally` save is modelled. -/
def runLoop (max_iterations : Option Int) (task : Option String) (iteration : Int)
    (progress : ProgressDict) (instruction : String) (disk : JsonFile) :
    List SubprocessResult → List Event × RunOutcome
  | [] =>
    match prePass max_iterations (iteration + 1) progress with
    | .error e => ([], .crashed e progress (save_progress progress))
    | .ok (p1, true) => ([], .maxedOut p1 (save_progress p1))
    | .ok (p1, false) => ([], .traceEnd p1 instruction disk)
  | r :: rest =>
    match prePass max_iterations (iteration + 1) progress with
    | .error e => ([], .crashed e progress (save_progress progress))
    | .ok (p1, true) => ([], .maxedOut p1 (save_progress p1))
    | .ok (p1, false) =>
      match sessionPhase task p1 instruction r (nowStamp (iteration + 1)) with
      | (evs, .taskComplete p2 _) => (evs, .taskDone p2 (save_progress p2))
      | (evs, .raised e p2 _) => (evs, .crashed e p2 (save_progress p2))
      | (evs, .nextPass p2 ins2 d2) =>
          let rest' := runLoop max_iterations task (iteration + 1) p2 ins2 d2 rest
          (evs ++ rest'.1, rest'.2)

/-- `main()` after authentication and settings creation: startup (load,
`started_at`, task pinning, instruction selection), the dry-run early
return, then the loop from `iteration = 0` over the subprocess trace. -/
def runMain (args : Args) (disk : JsonFile) (oracle : List SubprocessResult) :
    List Event × RunOutcome :=
  match startup args.task (nowStamp 0) disk with
  | .error e => ([], .startupCrash e)
  | .ok (progress, instruction) =>
    if args.dry_run then ([], .dryRun instruction)
    else runLoop args.max_iterations args.task 0 progress instruction disk oracle

/-! ## Observers over run results -/

/-- Number of agent sessions executed. -/
def sessionCount (evs : List Event) : Nat :=
  evs.countP fun e => match e with | .session _ _ _ => true | _ => false

/-- The instructions sent to the agent, in session order. -/
def sessionInstructions (evs : List Event) : List String :=
  evs.filterMap fun e => match e with | .session ins _ _ => some ins | _ => none

/-- The `iterations` values of the progress dictionaries saved during the
loop body, in order. -/
def savedIterValues (evs : List Event) : List (Option Int) :=
  evs.filterMap fun e => match e with | .saved p => some p.iterations | _ => none

/-- The `tasks_completed` entry of the progress record the run ended with
(`none` for a dry run or a startup crash). -/
def finalTasks : RunOutcome → Option (List String)
  | .maxedOut p _ => p.tasks_completed
  | .taskDone p _ => p.tasks_completed
  | .crashed _ p _ => p.tasks_completed
  | .traceEnd p _ _ => p.tasks_completed
  | _ => none

/-- The `iterations` entry of the progress record the run ended with. -/
def finalIterations : RunOutcome → Option Int
  | .maxedOut p _ => p.iterations
  | .taskDone p _ => p.iterations
  | .crashed _ p _ => p.iterations
  | .traceEnd p _ _ => p.iterations
  | _ => none

/-- Whether the loop actually stopped (break or uncaught error), as opposed
to still running when the modelled trace ended. -/
def loopStopped : RunOutcome → Bool
  | .traceEnd _ _ _ => false
  | _ => true

/-- Saved `iterations` values must equal `base + sessions run so far`,
walking the event list. -/
def savesTrack (expect : Int) : List Event → Bool
  | [] => true
  | .session _ _ _ :: rest => savesTrack (expect + 1) rest
  | .saved p :: rest => p.iterations == some expect && savesTrack expect rest
  | .slept _ :: rest => savesTrack expect rest

/-- A benign subprocess outcome: clean exit, no completion marker. -/
def benignResult : SubprocessResult → Bool
  | .completed rc out err => rc == 0 && !(completion_marker_found (renderOutput out err))
  | _ => false

/-- Well-formedness of an on-disk record: the three keys `main` reads
unconditionally are present. -/
def wfDict (d : ProgressDict) : Bool :=
  d.iterations.isSome && d.tasks_completed.isSome && d.started_at.isSome

/-- Disk states from which startup succeeds: no file, or a parseable file
with the unconditionally-read keys present. -/
def diskOk : JsonFile → Bool
  | .absent => true
  | .unparseable => false
  | .parsed d => wfDict d

/-- Initial persisted `iterations` value (0 when no file exists). -/
def baseIters : JsonFile → Int
  | .parsed d => d.iterations.getD 0
  | _ => 0


/-- Successive `some` values in a list are non-decreasing. -/
def nondecrOptInt : List (Option Int) → Bool
  | [] => true
  | [_] => true
  | a :: b :: t =>
      (match a, b with
       | some x, some y => decide (x ≤ y)
       | _, _ => false) && nondecrOptInt (b :: t)

/-- Initial persisted `tasks_completed` value (`[]` when no file exists). -/
def baseTasks : JsonFile → Option (List String)
  | .parsed d => d.tasks_completed
  | _ => some []

/-! ## Lemmas about a single loop pass -/

theorem sessionPhase_fail (task : Option String) (p : ProgressDict) (ins : String)
    (r : SubprocessResult) (now : String) (h : (run_claude_session r).1 ≠ 0) :
    sessionPhase task p ins r now =
      ([.session ins (run_claude_session r).1 (run_claude_session r).2,
        .saved { p with last_session := some (some now) },
        .slept (AUTO_CONTINUE_DELAY * 2)],
       .nextPass { p with last_session := some (some now) }
         (get_continuation_prompt { p with last_session := some (some now) })
         (save_progress { p with last_session := some (some now) })) := by
  have hb : ((run_claude_session r).1 != 0) = true := bne_iff_ne.mpr h
  simp [sessionPhase, hb, load_progress, save_progress]

theorem sessionPhase_ok_nomarker (task : Option String) (p : ProgressDict) (ins : String)
    (r : SubprocessResult) (now : String) (h0 : (run_claude_session r).1 = 0)
    (hm : completion_marker_found (run_claude_session r).2 = false) :
    sessionPhase task p ins r now =
      ([.session ins (run_claude_session r).1 (run_claude_session r).2,
        .saved { p with last_session := some (some now) },
        .slept AUTO_CONTINUE_DELAY],
       .nextPass { p with last_session := some (some now) }
         (get_continuation_prompt { p with last_session := some (some now) })
         (save_progress { p with last_session := some (some now) })) := by
  simp [sessionPhase, h0, hm, load_progress, save_progress]

theorem sessionPhase_marker_notask (p : ProgressDict) (ins : String)
    (r : SubprocessResult) (now : String) (h0 : (run_claude_session r).1 = 0)
    (hm : completion_marker_found (run_claude_session r).2 = true) :
    sessionPhase none p ins r now =
      ([.session ins (run_claude_session r).1 (run_claude_session r).2,
        .saved { p with last_session := some (some now) },
        .slept AUTO_CONTINUE_DELAY],
       .nextPass { p with last_session := some (some now) }
         (get_continuation_prompt { p with last_session := some (some now) })
         (save_progress { p with last_session := some (some now) })) := by
  simp [sessionPhase, h0, hm, load_progress, save_progress]

theorem sessionPhase_marker_task (t : String) (p : ProgressDict) (ins : String)
    (r : SubprocessResult) (now : String) (done : List String)
    (h0 : (run_claude_session r).1 = 0)
    (hm : completion_marker_found (run_claude_session r).2 = true)
    (hdone : p.tasks_completed = some done) :
    sessionPhase (some t) p ins r now =
      ([.session ins (run_claude_session r).1 (run_claude_session r).2,
        .saved { p with last_session := some (some now) },
        .saved { { p with last_session := some (some now) } with
                 tasks_completed := some (done ++ [t]) }],
       .taskComplete
         { { p with last_session := some (some now) } with
           tasks_completed := some (done ++ [t]) }
         (save_progress
           { { p with last_session := some (some now) } with
             tasks_completed := some (done ++ [t]) })) := by
  simp [sessionPhase, h0, hm, hdone, save_progress]

theorem sessionPhase_marker_nokeys (t : String) (p : ProgressDict) (ins : String)
    (r : SubprocessResult) (now : String)
    (h0 : (run_claude_session r).1 = 0)
    (hm : completion_marker_found (run_claude_session r).2 = true)
    (hdone : p.tasks_completed = none) :
    sessionPhase (some t) p ins r now =
      ([.session ins (run_claude_session r).1 (run_claude_session r).2,
        .saved { p with last_session := some (some now) }],
       .raised (.keyError "tasks_completed") { p with last_session := some (some now) }
         (save_progress { p with last_session := some (some now) })) := by
  simp [sessionPhase, h0, hm, hdone, save_progress]

/-! Event-count bookkeeping. -/

theorem sessionCount_nil : sessionCount [] = 0 := rfl

theorem sessionCount_append (a b : List Event) :
    sessionCount (a ++ b) = sessionCount a + sessionCount b :=
  List.countP_append _ a b

theorem sessionCount_cons_session (i : String) (ec : Int) (o : String) (l : List Event) :
    sessionCount (.session i ec o :: l) = sessionCount l + 1 := by
  simp [sessionCount, List.countP_cons]

theorem sessionCount_cons_saved (p : ProgressDict) (l : List Event) :
    sessionCount (.saved p :: l) = sessionCount l := by
  simp [sessionCount, List.countP_cons]

theorem sessionCount_cons_slept (s : Int) (l : List Event) :
    sessionCount (.slept s :: l) = sessionCount l := by
  simp [sessionCount, List.countP_cons]

/-- Every pass either continues (after a sleep), breaks on a completed task,
or raises a `KeyError` appending to a missing `tasks_completed`. The
dictionaries are packaged existentially with the field facts the loop
invariants need. -/
theorem sessionPhase_split (task : Option String) (p : ProgressDict) (ins : String)
    (r : SubprocessResult) (now : String) :
    (∃ d pA, sessionPhase task p ins r now =
        ([.session ins (run_claude_session r).1 (run_claude_session r).2,
          .saved pA, .slept d],
         .nextPass pA (get_continuation_prompt pA) (save_progress pA))
      ∧ pA.iterations = p.iterations ∧ pA.tasks_completed = p.tasks_completed)
    ∨ (∃ t done pA pB, task = some t ∧ p.tasks_completed = some done ∧
        sessionPhase task p ins r now =
          ([.session ins (run_claude_session r).1 (run_claude_session r).2,
            .saved pA, .saved pB],
           .taskComplete pB (save_progress pB))
      ∧ pA.iterations = p.iterations ∧ pB.iterations = p.iterations
      ∧ pB.tasks_completed = some (done ++ [t]))
    ∨ (∃ e pA, sessionPhase task p ins r now =
        ([.session ins (run_claude_session r).1 (run_claude_session r).2, .saved pA],
         .raised e pA (save_progress pA))
      ∧ pA.iterations = p.iterations) := by
  by_cases h0 : (run_claude_session r).1 = 0
  · by_cases hm : completion_marker_found (run_claude_session r).2 = true
    · cases task with
      | none =>
          exact Or.inl ⟨_, _, sessionPhase_marker_notask p ins r now h0 hm, rfl, rfl⟩
      | some t =>
        cases hdone : p.tasks_completed with
        | some done =>
            exact Or.inr (Or.inl ⟨t, done, _, _, rfl, rfl,
              sessionPhase_marker_task t p ins r now done h0 hm hdone, rfl, rfl, rfl⟩)
        | none =>
            exact Or.inr (Or.inr ⟨_, _,
              sessionPhase_marker_nokeys t p ins r now h0 hm hdone, rfl⟩)
    · exact Or.inl ⟨_, _, sessionPhase_ok_nomarker task p ins r now h0
        (by simpa using hm), rfl, rfl⟩
  · exact Or.inl ⟨_, _, sessionPhase_fail task p ins r now h0, rfl, rfl⟩

/-! Unfolding equations for `runLoop`, one per control path. -/

theorem runLoop_nil_crash (mi : Option Int) (task : Option String) (it : Int)
    (p : ProgressDict) (ins : String) (disk : JsonFile) (e : PyError)
    (h1 : prePass mi (it + 1) p = .error e) :
    runLoop mi task it p ins disk [] = ([], .crashed e p (save_progress p)) := by
  simp [runLoop, h1]

theorem runLoop_nil_break (mi : Option Int) (task : Option String) (it : Int)
    (p : ProgressDict) (ins : String) (disk : JsonFile) (p1 : ProgressDict)
    (h1 : prePass mi (it + 1) p = .ok (p1, true)) :
    runLoop mi task it p ins disk [] = ([], .maxedOut p1 (save_progress p1)) := by
  simp [runLoop, h1]

theorem runLoop_nil_cont (mi : Option Int) (task : Option String) (it : Int)
    (p : ProgressDict) (ins : String) (disk : JsonFile) (p1 : ProgressDict)
    (h1 : prePass mi (it + 1) p = .ok (p1, false)) :
    runLoop mi task it p ins disk [] = ([], .traceEnd p1 ins disk) := by
  simp [runLoop, h1]

theorem runLoop_cons_crash (mi : Option Int) (task : Option String) (it : Int)
    (p : ProgressDict) (ins : String) (disk : JsonFile) (r : SubprocessResult)
    (rest : List SubprocessResult) (e : PyError)
    (h1 : prePass mi (it + 1) p = .error e) :
    runLoop mi task it p ins disk (r :: rest)
      = ([], .crashed e p (save_progress p)) := by
  simp [runLoop, h1]

theorem runLoop_cons_break (mi : Option Int) (task : Option String) (it : Int)
    (p : ProgressDict) (ins : String) (disk : JsonFile) (r : SubprocessResult)
    (rest : List SubprocessResult) (p1 : ProgressDict)
    (h1 : prePass mi (it + 1) p = .ok (p1, true)) :
    runLoop mi task it p ins disk (r :: rest)
      = ([], .maxedOut p1 (save_progress p1)) := by
  simp [runLoop, h1]

theorem runLoop_cons_next (mi : Option Int) (task : Option String) (it : Int)
    (p : ProgressDict) (ins : String) (disk : JsonFile) (r : SubprocessResult)
    (rest : List SubprocessResult) (p1 : ProgressDict) (evs : List Event)
    (p2 : ProgressDict) (ins2 : String) (d2 : JsonFile)
    (h1 : prePass mi (it + 1) p = .ok (p1, false))
    (h2 : sessionPhase task p1 ins r (nowStamp (it + 1)) = (evs, .nextPass p2 ins2 d2)) :
    runLoop mi task it p ins disk (r :: rest)
      = (evs ++ (runLoop mi task (it + 1) p2 ins2 d2 rest).1,
         (runLoop mi task (it + 1) p2 ins2 d2 rest).2) := by
  simp [runLoop, h1, h2]

theorem runLoop_cons_complete (mi : Option Int) (task : Option String) (it : Int)
    (p : ProgressDict) (ins : String) (disk : JsonFile) (r : SubprocessResult)
    (rest : List SubprocessResult) (p1 : ProgressDict) (evs : List Event)
    (p2 : ProgressDict) (d2 : JsonFile)
    (h1 : prePass mi (it + 1) p = .ok (p1, false))
    (h2 : sessionPhase task p1 ins r (nowStamp (it + 1)) = (evs, .taskComplete p2 d2)) :
    runLoop mi task it p ins disk (r :: rest)
      = (evs, .taskDone p2 (save_progress p2)) := by
  simp [runLoop, h1, h2]

theorem runLoop_cons_raised (mi : Option Int) (task : Option String) (it : Int)
    (p : ProgressDict) (ins : String) (disk : JsonFile) (r : SubprocessResult)
    (rest : List SubprocessResult) (p1 : ProgressDict) (evs : List Event)
    (e : PyError) (p2 : ProgressDict) (d2 : JsonFile)
    (h1 : prePass mi (it + 1) p = .ok (p1, false))
    (h2 : sessionPhase task p1 ins r (nowStamp (it + 1)) = (evs, .raised e p2 d2)) :
    runLoop mi task it p ins disk (r :: rest)
      = (evs, .crashed e p2 (save_progress p2)) := by
  simp [runLoop, h1, h2]

/-- In any run of the loop, the first session (if any) is sent the incoming
instruction, and every later session is sent a continuation instruction
computed by `get_continuation_prompt` from the state reloaded from disk. -/
theorem runLoop_instructions (mi : Option Int) (task : Option String)
    (results : List SubprocessResult) :
    ∀ (it : Int) (p : ProgressDict) (ins : String) (disk : JsonFile),
      (∀ q, (sessionInstructions (runLoop mi task it p ins disk results).1).head? = some q →
          q = ins)
      ∧ (∀ q, q ∈ (sessionInstructions (runLoop mi task it p ins disk results).1).tail →
          ∃ pp, q = get_continuation_prompt pp) := by
  induction results with
  | nil =>
    intro it p ins disk
    have hev : (runLoop mi task it p ins disk []).1 = [] := by
      cases h1 : prePass mi (it + 1) p with
      | error e => rw [runLoop_nil_crash mi task it p ins disk e h1]
      | ok pb =>
          rcases pb with ⟨p1, b⟩
          cases b with
          | true => rw [runLoop_nil_break mi task it p ins disk p1 h1]
          | false => rw [runLoop_nil_cont mi task it p ins disk p1 h1]
    constructor <;> intro q hq <;> rw [hev] at hq <;>
      simp [sessionInstructions] at hq
  | cons r rest ih =>
    intro it p ins disk
    cases h1 : prePass mi (it + 1) p with
    | error e =>
        rw [runLoop_cons_crash mi task it p ins disk r rest e h1]
        constructor <;> intro q hq <;> simp [sessionInstructions] at hq
    | ok pb =>
      rcases pb with ⟨p1, b⟩
      cases b with
      | true =>
          rw [runLoop_cons_break mi task it p ins disk r rest p1 h1]
          constructor <;> intro q hq <;> simp [sessionInstructions] at hq
      | false =>
        rcases sessionPhase_split task p1 ins r (nowStamp (it + 1)) with
          ⟨d, pA, hsp, hAi, hAt⟩ | ⟨t, done, pA, pB, htask, hdone, hsp, hAi, hBi, hBt⟩ |
          ⟨e, pA, hsp, hAi⟩
        · rw [runLoop_cons_next mi task it p ins disk r rest p1 _ _ _ _ h1 hsp]
          obtain ⟨ih1, ih2⟩ := ih (it + 1) pA (get_continuation_prompt pA) (save_progress pA)
          constructor
          · intro q hq
            simp [sessionInstructions, List.filterMap_cons, List.filterMap_append] at hq
            exact hq.symm
          · intro q hq
            simp only [sessionInstructions, List.filterMap_cons, List.filterMap_append,
              List.cons_append, List.nil_append, List.tail_cons] at hq
            simp only [sessionInstructions] at ih1 ih2
            cases hti : (runLoop mi task (it + 1) pA (get_continuation_prompt pA)
                (save_progress pA) rest).1.filterMap
                (fun e => match e with | .session i _ _ => some i | _ => none) with
            | nil => rw [hti] at hq; simp at hq
            | cons a l2 =>
              rw [hti] at hq
              rcases List.mem_cons.mp hq with hqa | hql
              · subst hqa
                exact ⟨_, ih1 q (by rw [hti]; rfl)⟩
              · exact ih2 q (by rw [hti]; simpa using hql)
        · rw [runLoop_cons_complete mi task it p ins disk r rest p1 _ _ _ h1 hsp]
          constructor <;> intro q hq <;>
            simp [sessionInstructions, List.filterMap_cons] at hq
          exact hq.symm
        · rw [runLoop_cons_raised mi task it p ins disk r rest p1 _ _ _ _ h1 hsp]
          constructor <;> intro q hq <;>
            simp [sessionInstructions, List.filterMap_cons] at hq
          exact hq.symm

/-- Loop invariant for the iteration counter: starting from an in-memory
record whose `iterations` is `v`, every save during the loop body records
`v` plus the number of sessions run so far; a ceiling stop finally saves one
more than the sessions run, while a completion stop saves exactly the
sessions run. -/
theorem runLoop_savesTrack (mi : Option Int) (task : Option String)
    (results : List SubprocessResult) :
    ∀ (it : Int) (p : ProgressDict) (ins : String) (disk : JsonFile) (v : Int),
      p.iterations = some v →
      savesTrack v (runLoop mi task it p ins disk results).1 = true
      ∧ (∀ q dk, (runLoop mi task it p ins disk results).2 = .maxedOut q dk →
          q.iterations = some (v + sessionCount (runLoop mi task it p ins disk results).1 + 1)
          ∧ dk = save_progress q)
      ∧ (∀ q dk, (runLoop mi task it p ins disk results).2 = .taskDone q dk →
          q.iterations = some (v + sessionCount (runLoop mi task it p ins disk results).1)
          ∧ dk = save_progress q) := by
  induction results with
  | nil =>
    intro it p ins disk v hv
    have hpp : prePass mi (it + 1) p
        = .ok ({ p with iterations := some (v + 1) }, ceiling_hit mi (it + 1)) := by
      simp [prePass, hv]
    cases hc : ceiling_hit mi (it + 1) with
    | true =>
      rw [hc] at hpp
      rw [runLoop_nil_break mi task it p ins disk _ hpp]
      refine ⟨rfl, ?_, ?_⟩
      · intro q dk h
        injection h with h1 h2
        subst h1
        refine ⟨?_, h2.symm⟩
        simp [sessionCount]
      · intro q dk h
        simp at h
    | false =>
      rw [hc] at hpp
      rw [runLoop_nil_cont mi task it p ins disk _ hpp]
      refine ⟨rfl, ?_, ?_⟩ <;> intro q dk h <;> simp at h
  | cons r rest ih =>
    intro it p ins disk v hv
    have hpp : prePass mi (it + 1) p
        = .ok ({ p with iterations := some (v + 1) }, ceiling_hit mi (it + 1)) := by
      simp [prePass, hv]
    have hp1i : ({ p with iterations := some (v + 1) } : ProgressDict).iterations
        = some (v + 1) := rfl
    cases hc : ceiling_hit mi (it + 1) with
    | true =>
      rw [hc] at hpp
      rw [runLoop_cons_break mi task it p ins disk r rest _ hpp]
      refine ⟨rfl, ?_, ?_⟩
      · intro q dk h
        injection h with h1 h2
        subst h1
        refine ⟨?_, h2.symm⟩
        simp [sessionCount]
      · intro q dk h
        simp at h
    | false =>
      rw [hc] at hpp
      rcases sessionPhase_split task { p with iterations := some (v + 1) } ins r
          (nowStamp (it + 1)) with
        ⟨d, pA, hsp, hAi, hAt⟩ | ⟨t, done, pA, pB, htask, hdone, hsp, hAi, hBi, hBt⟩ |
        ⟨e, pA, hsp, hAi⟩
      · rw [runLoop_cons_next mi task it p ins disk r rest _ _ _ _ _ hpp hsp]
        have hpAi : pA.iterations = some (v + 1) := hAi.trans hp1i
        obtain ⟨ihT, ihM, ihD⟩ := ih (it + 1) pA (get_continuation_prompt pA)
          (save_progress pA) (v + 1) hpAi
        refine ⟨?_, ?_, ?_⟩
        · simp only [List.cons_append, List.nil_append, savesTrack, hpAi]
          simp [ihT]
        · intro q dk h
          obtain ⟨hqi, hdk⟩ := ihM q dk h
          refine ⟨?_, hdk⟩
          rw [hqi]
          simp only [List.cons_append, List.nil_append, sessionCount_cons_session,
            sessionCount_cons_saved, sessionCount_cons_slept, sessionCount_append,
            sessionCount_nil]
          exact congrArg some (by push_cast; ring)
        · intro q dk h
          obtain ⟨hqi, hdk⟩ := ihD q dk h
          refine ⟨?_, hdk⟩
          rw [hqi]
          simp only [List.cons_append, List.nil_append, sessionCount_cons_session,
            sessionCount_cons_saved, sessionCount_cons_slept, sessionCount_append,
            sessionCount_nil]
          exact congrArg some (by push_cast; ring)
      · rw [runLoop_cons_complete mi task it p ins disk r rest _ _ _ _ hpp hsp]
        have hpAi : pA.iterations = some (v + 1) := hAi.trans hp1i
        have hpBi : pB.iterations = some (v + 1) := hBi.trans hp1i
        refine ⟨?_, ?_, ?_⟩
        · simp [savesTrack, hpAi, hpBi]
        · intro q dk h
          simp at h
        · intro q dk h
          injection h with h1 h2
          subst h1
          refine ⟨?_, h2.symm⟩
          rw [hpBi]
          simp only [sessionCount_cons_session, sessionCount_cons_saved, sessionCount_nil]
          exact congrArg some (by push_cast; ring)
      · rw [runLoop_cons_raised mi task it p ins disk r rest _ _ _ _ _ hpp hsp]
        have hpAi : pA.iterations = some (v + 1) := hAi.trans hp1i
        refine ⟨?_, ?_, ?_⟩
        · simp [savesTrack, hpAi]
        · intro q dk h
          simp at h
        · intro q dk h
          simp at h

/-! ## Startup lemmas -/

/-- From every acceptable disk state, startup succeeds, keeps `iterations`
and `tasks_completed` from the persisted record (or the defaults), and
selects the task-focused instruction exactly when a task is pinned. -/
theorem startup_ok (task : Option String) (now : String) (disk : JsonFile)
    (h : diskOk disk = true) :
    ∃ p ins, startup task now disk = .ok (p, ins)
      ∧ p.iterations = some (baseIters disk)
      ∧ p.tasks_completed = baseTasks disk
      ∧ (∀ t, task = some t → ins = get_task_prompt t) := by
  cases disk with
  | absent =>
      cases task with
      | none => exact ⟨_, _, rfl, rfl, rfl, by intro t ht; cases ht⟩
      | some t => exact ⟨_, _, rfl, rfl, rfl, by intro u hu; cases hu; rfl⟩
  | unparseable => simp [diskOk] at h
  | parsed d =>
    simp only [diskOk, wfDict, Bool.and_eq_true] at h
    obtain ⟨⟨hi, ht⟩, hs⟩ := h
    rw [Option.isSome_iff_exists] at hi ht hs
    obtain ⟨n, hn⟩ := hi
    obtain ⟨tc, htc⟩ := ht
    obtain ⟨sa, hsa⟩ := hs
    cases task with
    | none =>
        cases sa with
        | none =>
            refine ⟨{ d with started_at := some (some now) },
              get_continuation_prompt { d with started_at := some (some now) },
              ?_, ?_, ?_, by intro t ht; cases ht⟩
            · simp [startup, load_progress, hsa]
            · simp [baseIters, hn]
            · simp [baseTasks, htc]
        | some s =>
            refine ⟨d, get_continuation_prompt d, ?_, ?_, ?_, by intro t ht; cases ht⟩
            · simp [startup, load_progress, hsa]
            · simp [baseIters, hn]
            · simp [baseTasks]
    | some t =>
        cases sa with
        | none =>
            refine ⟨{ { d with started_at := some (some now) } with
                current_task := some (some t) },
              get_task_prompt t, ?_, ?_, ?_, by intro u hu; cases hu; rfl⟩
            · simp [startup, load_progress, hsa]
            · simp [baseIters, hn]
            · simp [baseTasks, htc]
        | some s =>
            refine ⟨{ d with current_task := some (some t) },
              get_task_prompt t, ?_, ?_, ?_, by intro u hu; cases hu; rfl⟩
            · simp [startup, load_progress, hsa]
            · simp [baseIters, hn]
            · simp [baseTasks]

/-! ## Ceiling, benign-trace and monotonicity lemmas -/

/-- A benign outcome has exit code 0 and no completion marker in its output. -/
theorem benign_spec (r : SubprocessResult) (h : benignResult r = true) :
    (run_claude_session r).1 = 0
    ∧ completion_marker_found (run_claude_session r).2 = false := by
  cases r with
  | completed rc out err =>
      simp only [benignResult, Bool.and_eq_true, beq_iff_eq, Bool.not_eq_true'] at h
      exact ⟨h.1, h.2⟩
  | timedOut => simp [benignResult] at h
  | errored msg => simp [benignResult] at h

/-- A benign session always takes the plain continue-after-base-delay path. -/
theorem sessionPhase_benign (task : Option String) (p : ProgressDict) (ins : String)
    (r : SubprocessResult) (now : String) (h : benignResult r = true) :
    ∃ pA, sessionPhase task p ins r now =
        ([.session ins (run_claude_session r).1 (run_claude_session r).2,
          .saved pA, .slept AUTO_CONTINUE_DELAY],
         .nextPass pA (get_continuation_prompt pA) (save_progress pA))
      ∧ pA.iterations = p.iterations ∧ pA.tasks_completed = p.tasks_completed := by
  obtain ⟨h0, hm⟩ := benign_spec r h
  exact ⟨_, sessionPhase_ok_nomarker task p ins r now h0 hm, rfl, rfl⟩

/-- Once the local iteration counter has reached a non-zero ceiling, the very
next pass increments the persisted counter once more and stops before
running anything. -/
theorem runLoop_break_now (m : Int) (task : Option String)
    (results : List SubprocessResult) (it : Int) (p : ProgressDict) (ins : String)
    (disk : JsonFile) (v : Int) (hv : p.iterations = some v) (hm : m ≠ 0)
    (hit : m ≤ it) :
    runLoop (some m) task it p ins disk results
      = ([], .maxedOut { p with iterations := some (v + 1) }
          (save_progress { p with iterations := some (v + 1) })) := by
  have hch : ceiling_hit (some m) (it + 1) = true := by
    simp only [ceiling_hit, Bool.and_eq_true, bne_iff_ne, ne_eq, decide_eq_true_eq]
    exact ⟨hm, by omega⟩
  have hpp : prePass (some m) (it + 1) p
      = .ok ({ p with iterations := some (v + 1) }, true) := by
    simp [prePass, hv, hch]
  cases results with
  | nil => exact runLoop_nil_break _ _ _ _ _ _ _ hpp
  | cons r rest => exact runLoop_cons_break _ _ _ _ _ _ _ _ _ hpp

/-- With a non-zero ceiling `m`, a trace of only benign sessions long enough
to reach it runs exactly `m - it` further sessions, stops at the ceiling,
and leaves `tasks_completed` untouched. -/
theorem runLoop_benign_ceiling (m : Int) (task : Option String)
    (results : List SubprocessResult) :
    ∀ (it : Int) (p : ProgressDict) (ins : String) (disk : JsonFile) (v : Int)
      (tc : Option (List String)),
      (∀ r ∈ results, benignResult r = true) →
      p.iterations = some v → p.tasks_completed = tc →
      m ≠ 0 → it < m → m - it ≤ (results.length : Int) →
      ∃ q, (runLoop (some m) task it p ins disk results).2
          = .maxedOut q (save_progress q)
        ∧ q.tasks_completed = tc
        ∧ (sessionCount (runLoop (some m) task it p ins disk results).1 : Int)
            = m - it := by
  induction results with
  | nil =>
    intro it p ins disk v tc hben hv htc hm hit hlen
    exfalso
    simp only [List.length_nil, Nat.cast_zero] at hlen
    omega
  | cons r rest ih =>
    intro it p ins disk v tc hben hv htc hm hit hlen
    have hch : ceiling_hit (some m) (it + 1) = false := by
      have : ¬(it + 1 > m) := by omega
      simp [ceiling_hit, this]
    have hpp : prePass (some m) (it + 1) p
        = .ok ({ p with iterations := some (v + 1) }, false) := by
      simp [prePass, hv, hch]
    obtain ⟨pA, hsp, hAi, hAt⟩ := sessionPhase_benign task
      { p with iterations := some (v + 1) } ins r (nowStamp (it + 1))
      (hben r (List.mem_cons_self r rest))
    rw [runLoop_cons_next (some m) task it p ins disk r rest _ _ _ _ _ hpp hsp]
    have hpAi : pA.iterations = some (v + 1) := hAi.trans rfl
    have hpAt : pA.tasks_completed = tc := hAt.trans htc
    by_cases hnext : it + 1 < m
    · obtain ⟨q, hq, hqt, hqc⟩ := ih (it + 1) pA (get_continuation_prompt pA)
        (save_progress pA) (v + 1) tc
        (fun x hx => hben x (List.mem_cons_of_mem r hx)) hpAi hpAt hm hnext
        (by simp only [List.length_cons, Nat.cast_add, Nat.cast_one] at hlen; omega)
      refine ⟨q, hq, hqt, ?_⟩
      simp only [List.cons_append, List.nil_append, sessionCount_cons_session,
        sessionCount_cons_saved, sessionCount_cons_slept, sessionCount_append]
      push_cast
      omega
    · have hbrk := runLoop_break_now m task rest (it + 1) pA
        (get_continuation_prompt pA) (save_progress pA) (v + 1) hpAi hm (by omega)
      refine ⟨{ pA with iterations := some (v + 1 + 1) }, ?_, ?_, ?_⟩
      · show (runLoop (some m) task (it + 1) pA (get_continuation_prompt pA)
            (save_progress pA) rest).2 = _
        rw [hbrk]
      · exact hpAt
      · show (sessionCount ([Event.session ins (run_claude_session r).1
            (run_claude_session r).2, Event.saved pA, Event.slept AUTO_CONTINUE_DELAY]
            ++ (runLoop (some m) task (it + 1) pA (get_continuation_prompt pA)
              (save_progress pA) rest).1) : Int) = m - it
        rw [hbrk]
        simp only [List.cons_append, List.nil_append, sessionCount_cons_session,
          sessionCount_cons_saved, sessionCount_cons_slept, sessionCount_append,
          sessionCount_nil]
        push_cast
        omega

/-- `--max-iterations 0` and no ceiling drive the loop identically. -/
theorem runLoop_zero_ceiling (task : Option String) (results : List SubprocessResult) :
    ∀ (it : Int) (p : ProgressDict) (ins : String) (disk : JsonFile),
      runLoop (some 0) task it p ins disk results
        = runLoop none task it p ins disk results := by
  induction results with
  | nil =>
    intro it p ins disk
    have hpp : prePass (some 0) (it + 1) p = prePass none (it + 1) p := by
      cases p.iterations <;> simp [prePass, ceiling_hit]
    simp only [runLoop, hpp]
  | cons r rest ih =>
    intro it p ins disk
    have hpp : prePass (some 0) (it + 1) p = prePass none (it + 1) p := by
      cases p.iterations <;> simp [prePass, ceiling_hit]
    simp only [runLoop, hpp, ih]


theorem savesTrack_nondecr (evs : List Event) :
    ∀ v, savesTrack v evs = true →
      nondecrOptInt (savedIterValues evs) = true
      ∧ ∀ x, (savedIterValues evs).head? = some x → ∃ w, x = some w ∧ v ≤ w := by
  induction evs with
  | nil =>
      intro v h
      exact ⟨rfl, by intro x hx; simp [savedIterValues] at hx⟩
  | cons e rest ih =>
    intro v h
    cases e with
    | session i ec o =>
        simp only [savesTrack] at h
        obtain ⟨h1, h2⟩ := ih (v + 1) h
        refine ⟨by simpa [savedIterValues] using h1, ?_⟩
        intro x hx
        obtain ⟨w, hw, hvw⟩ := h2 x (by simpa [savedIterValues] using hx)
        exact ⟨w, hw, by omega⟩
    | slept s =>
        simp only [savesTrack] at h
        obtain ⟨h1, h2⟩ := ih v h
        exact ⟨by simpa [savedIterValues] using h1,
          by intro x hx; exact h2 x (by simpa [savedIterValues] using hx)⟩
    | saved p =>
        simp only [savesTrack, Bool.and_eq_true, beq_iff_eq] at h
        obtain ⟨hp, hrest⟩ := h
        obtain ⟨h1, h2⟩ := ih v hrest
        have hvals : savedIterValues (Event.saved p :: rest)
            = some v :: savedIterValues rest := by
          simp [savedIterValues, hp]
        refine ⟨?_, ?_⟩
        · rw [hvals]
          cases hcase : savedIterValues rest with
          | nil => rfl
          | cons a t2 =>
              rw [hcase] at h1
              obtain ⟨w, hw, hvw⟩ := h2 a (by rw [hcase]; rfl)
              subst hw
              simp only [nondecrOptInt, Bool.and_eq_true]
              exact ⟨by simpa using hvw, h1⟩
        · intro x hx
          rw [hvals] at hx
          simp only [List.head?_cons, Option.some.injEq] at hx
          exact ⟨v, hx.symm, le_refl v⟩

/-- Startup over a parsed record whose `started_at` key is present succeeds
and keeps the stored `iterations` value (which may be absent). -/
theorem startup_parsed_ok (task : Option String) (now : String) (d : ProgressDict)
    (sa : Option String) (hsa : d.started_at = some sa) :
    ∃ p ins, startup task now (.parsed d) = .ok (p, ins)
      ∧ p.iterations = d.iterations := by
  cases sa with
  | none =>
    cases task with
    | none =>
        exact ⟨{ d with started_at := some (some now) },
          get_continuation_prompt { d with started_at := some (some now) },
          by simp [startup, load_progress, hsa], rfl⟩
    | some t =>
        exact ⟨{ { d with started_at := some (some now) } with
            current_task := some (some t) },
          get_task_prompt t, by simp [startup, load_progress, hsa], rfl⟩
  | some s =>
    cases task with
    | none =>
        exact ⟨d, get_continuation_prompt d,
          by simp [startup, load_progress, hsa], rfl⟩
    | some t =>
        exact ⟨{ d with current_task := some (some t) }, get_task_prompt t,
          by simp [startup, load_progress, hsa], rfl⟩

/-- When an explicit task is pinned, whatever startup returns as the initial
instruction is the task-focused instruction for that task. -/
theorem startup_some_task (t : String) (now : String) (disk : JsonFile)
    (p : ProgressDict) (ins : String)
    (h : startup (some t) now disk = .ok (p, ins)) : ins = get_task_prompt t := by
  unfold startup at h
  cases hld : load_progress disk with
  | error e => rw [hld] at h; simp at h
  | ok p0 =>
    rw [hld] at h
    cases hsa : p0.started_at with
    | none => simp [hsa] at h
    | some sa =>
      simp only [hsa, Except.ok.injEq, Prod.mk.injEq] at h
      exact h.2.symm

/-! ## Claim theorems -/

/-- C1: The spec says a session outcome with exit code 0 whose output
contains, case-insensitively, "task complete" or "all done" while an
explicit task is pinned appends the task once, persists and stops — for
every casing of the marker. Evaluating the code at the failing input: the
detection at line 466 is `"TASK COMPLETE" in output or "All done" in
output.lower()`, so no casing of "all done" (not even the code's own
literal `"All done"`) can ever match a lowercased output, and lowercase
variants of "task complete" do not match either. With the pinned task
"Fix bug X" and one session exiting 0 with output "ALL DONE", nothing is
appended and the loop continues; only the exact upper-case "TASK COMPLETE"
stops it and appends. -/
theorem helios_c1_marker_not_case_insensitive :
    completion_marker_found "ALL DONE" = false
    ∧ completion_marker_found "All done" = false
    ∧ completion_marker_found "all done" = false
    ∧ completion_marker_found "Task complete" = false
    ∧ completion_marker_found "task complete" = false
    ∧ completion_marker_found "TASK COMPLETE" = true
    ∧ loopStopped (runMain ⟨none, some "Fix bug X", false⟩ .absent
        [.completed 0 "ALL DONE" ""]).2 = false
    ∧ finalTasks (runMain ⟨none, some "Fix bug X", false⟩ .absent
        [.completed 0 "ALL DONE" ""]).2 = some []
    ∧ sessionCount (runMain ⟨none, some "Fix bug X", false⟩ .absent
        [.completed 0 "ALL DONE" ""]).1 = 1
    ∧ loopStopped (runMain ⟨none, some "Fix bug X", false⟩ .absent
        [.completed 0 "TASK COMPLETE" ""]).2 = true
    ∧ finalTasks (runMain ⟨none, some "Fix bug X", false⟩ .absent
        [.completed 0 "TASK COMPLETE" ""]).2 = some ["Fix bug X"] := by
  decide

/-- C2 counterexample: in a run pinned to `--task "Fix bug X"` whose first
session exits 0 without a marker, the second session is sent the default
continuation instruction computed from the reloaded state — not the
task-focused instruction the claim requires on every iteration. -/
theorem helios_c2_counterexample :
    (sessionInstructions (runMain ⟨none, some "Fix bug X", false⟩ .absent
        [.completed 0 "ok" "", .completed 0 "ok" ""]).1).length = 2
    ∧ (sessionInstructions (runMain ⟨none, some "Fix bug X", false⟩ .absent
        [.completed 0 "ok" "", .completed 0 "ok" ""]).1).getD 1 ""
        = continuation_default_text
    ∧ continuation_default_text ≠ get_task_prompt "Fix bug X" := by
  refine ⟨by decide, rfl, by decide⟩

/-- C2 (amended): in a run started with an explicit task, only the first
session is sent the task-focused instruction containing that task; every
later session is sent an instruction computed by `get_continuation_prompt`
from the state reloaded from disk (which does consult `next_task`), because
lines 476-478 recompute the prompt unconditionally after every session. -/
theorem helios_c2_task_prompt_first_session_only (mi : Option Int) (t : String)
    (dr : Bool) (disk : JsonFile) (oracle : List SubprocessResult) :
    (∀ q, (sessionInstructions (runMain ⟨mi, some t, dr⟩ disk oracle).1).head? = some q →
        q = get_task_prompt t)
    ∧ (∀ q, q ∈ (sessionInstructions (runMain ⟨mi, some t, dr⟩ disk oracle).1).tail →
        ∃ p, q = get_continuation_prompt p) := by
  cases hs : startup (some t) (nowStamp 0) disk with
  | error e =>
      constructor <;> intro q hq <;> simp [runMain, hs, sessionInstructions] at hq
  | ok pr =>
    rcases pr with ⟨p0, ins0⟩
    have hins : ins0 = get_task_prompt t := startup_some_task t (nowStamp 0) disk p0 ins0 hs
    cases dr with
    | true =>
        constructor <;> intro q hq <;> simp [runMain, hs, sessionInstructions] at hq
    | false =>
        have hrm : runMain ⟨mi, some t, false⟩ disk oracle
            = runLoop mi (some t) 0 p0 ins0 disk oracle := by
          simp [runMain, hs]
        rw [hrm]
        obtain ⟨ha, hb⟩ := runLoop_instructions mi (some t) oracle 0 p0 ins0 disk
        exact ⟨fun q hq => (ha q hq).trans hins, hb⟩

/-- C3 counterexample: an existing progress file that `json.load` rejects
(such as an empty file) makes `load_progress` raise a decode error to the
caller instead of returning the default state. -/
theorem helios_c3_counterexample :
    load_progress .unparseable ≠ .ok default_progress
    ∧ load_progress .unparseable = .error .jsonDecodeError := by
  exact ⟨by simp [load_progress], rfl⟩

/-- C3 (amended): `load_progress` returns the documented default state
exactly when the file is absent and never raises in that case; an existing
file is parsed and returned as stored, and an existing empty or otherwise
unparseable file raises a JSON decode error to the caller. -/
theorem helios_c3_default_only_when_absent :
    load_progress .absent = .ok default_progress
    ∧ (∀ d, load_progress (.parsed d) = .ok d)
    ∧ load_progress .unparseable = .error .jsonDecodeError
    ∧ (∀ task now, ∃ p ins, startup task now .absent = .ok (p, ins)) := by
  refine ⟨rfl, fun d => rfl, rfl, ?_⟩
  intro task now
  obtain ⟨p, ins, h, -, -, -⟩ := startup_ok task now .absent rfl
  exact ⟨p, ins, h⟩

/-- C4: a malformed (unparseable) progress file makes startup fail with an
uncaught JSON decode error before any session — surfaced to the operator,
not silently replaced by a default — while a missing file is not an error. -/
theorem helios_c4_malformed_is_fatal :
    load_progress .unparseable = .error .jsonDecodeError
    ∧ (∀ args oracle, runMain args .unparseable oracle
        = ([], .startupCrash .jsonDecodeError))
    ∧ load_progress .absent = .ok default_progress
    ∧ (∀ task now, ∃ p ins, startup task now .absent = .ok (p, ins)) := by
  refine ⟨rfl, ?_, rfl, ?_⟩
  · intro args oracle
    simp [runMain, startup, load_progress]
  · intro task now
    obtain ⟨p, ins, h, -, -, -⟩ := startup_ok task now .absent rfl
    exact ⟨p, ins, h⟩

/-- C5 counterexample: with `--max-iterations 1` over a fresh state and one
clean-but-incomplete session, exactly one session is attempted but the run
ends (at the ceiling) with a persisted `iterations` of 2 — the pass that
hits the ceiling increments the counter without attempting a session, so
the persisted value does not equal the number of sessions attempted. -/
theorem helios_c5_counterexample :
    sessionCount (runMain ⟨some 1, none, false⟩ .absent [.completed 0 "ok" ""]).1 = 1
    ∧ finalIterations (runMain ⟨some 1, none, false⟩ .absent
        [.completed 0 "ok" ""]).2 = some 2
    ∧ finalIterations (runMain ⟨some 1, none, false⟩ .absent
        [.completed 0 "ok" ""]).2
        ≠ some ((sessionCount (runMain ⟨some 1, none, false⟩ .absent
            [.completed 0 "ok" ""]).1 : Int))
    ∧ loopStopped (runMain ⟨some 1, none, false⟩ .absent
        [.completed 0 "ok" ""]).2 = true := by
  decide

/-- C5 (amended): the persisted `iterations` values are monotonically
non-decreasing and never reset, and the counter is incremented before the
session of its pass runs: every value saved during the loop body equals the
starting value plus the number of sessions attempted so far, and a run that
stops on a completed task finally persists exactly that total — but a run
stopped by the iteration ceiling finally persists one more than the number
of sessions attempted, because the breaking pass increments the counter
before the ceiling check without ever running a session. -/
theorem helios_c5_iterations_monotone (args : Args) (disk : JsonFile)
    (oracle : List SubprocessResult) (hdisk : diskOk disk = true)
    (hdr : args.dry_run = false) :
    savesTrack (baseIters disk) (runMain args disk oracle).1 = true
    ∧ nondecrOptInt (savedIterValues (runMain args disk oracle).1) = true
    ∧ (∀ q dk, (runMain args disk oracle).2 = .maxedOut q dk →
        q.iterations = some (baseIters disk
          + sessionCount (runMain args disk oracle).1 + 1)
        ∧ dk = save_progress q)
    ∧ (∀ q dk, (runMain args disk oracle).2 = .taskDone q dk →
        q.iterations = some (baseIters disk
          + sessionCount (runMain args disk oracle).1)
        ∧ dk = save_progress q) := by
  obtain ⟨p0, ins0, hst, hpi, hpt, -⟩ := startup_ok args.task (nowStamp 0) disk hdisk
  have hrm : runMain args disk oracle
      = runLoop args.max_iterations args.task 0 p0 ins0 disk oracle := by
    simp [runMain, hst, hdr]
  rw [hrm]
  obtain ⟨hT, hM, hD⟩ := runLoop_savesTrack args.max_iterations args.task oracle
    0 p0 ins0 disk (baseIters disk) hpi
  exact ⟨hT, (savesTrack_nondecr _ _ hT).1, hM, hD⟩

/-- Witness for the C5 amended theorem at a concrete run. -/
theorem helios_c5_iterations_monotone_witness :
    savesTrack (baseIters .absent)
      (runMain ⟨some 1, none, false⟩ .absent [.completed 0 "ok" ""]).1 = true
    ∧ nondecrOptInt (savedIterValues (runMain ⟨some 1, none, false⟩ .absent
        [.completed 0 "ok" ""]).1) = true
    ∧ (∀ q dk, (runMain ⟨some 1, none, false⟩ .absent
          [.completed 0 "ok" ""]).2 = .maxedOut q dk →
        q.iterations = some (baseIters .absent
          + sessionCount (runMain ⟨some 1, none, false⟩ .absent
              [.completed 0 "ok" ""]).1 + 1)
        ∧ dk = save_progress q)
    ∧ (∀ q dk, (runMain ⟨some 1, none, false⟩ .absent
          [.completed 0 "ok" ""]).2 = .taskDone q dk →
        q.iterations = some (baseIters .absent
          + sessionCount (runMain ⟨some 1, none, false⟩ .absent
              [.completed 0 "ok" ""]).1)
        ∧ dk = save_progress q) :=
  helios_c5_iterations_monotone ⟨some 1, none, false⟩ .absent
    [.completed 0 "ok" ""] rfl rfl

/-- C6: with `--max-iterations N` (`N ≥ 1`) and every session exiting 0
without a completion marker, exactly `N` sessions run, the loop then stops
at the ceiling before running anything on the exceeding pass, and nothing
is ever appended to `tasks_completed`. -/
theorem helios_c6_runs_exactly_n (N : Int) (task : Option String) (disk : JsonFile)
    (oracle : List SubprocessResult) (hN : 1 ≤ N) (hdisk : diskOk disk = true)
    (hben : ∀ r ∈ oracle, benignResult r = true)
    (hlen : N ≤ (oracle.length : Int)) :
    ∃ q, (runMain ⟨some N, task, false⟩ disk oracle).2
        = .maxedOut q (save_progress q)
      ∧ q.tasks_completed = baseTasks disk
      ∧ (sessionCount (runMain ⟨some N, task, false⟩ disk oracle).1 : Int) = N := by
  obtain ⟨p0, ins0, hst, hpi, hpt, -⟩ := startup_ok task (nowStamp 0) disk hdisk
  have hrm : runMain ⟨some N, task, false⟩ disk oracle
      = runLoop (some N) task 0 p0 ins0 disk oracle := by
    simp [runMain, hst]
  rw [hrm]
  obtain ⟨q, hq, hqt, hqc⟩ := runLoop_benign_ceiling N task oracle 0 p0 ins0 disk
    (baseIters disk) (baseTasks disk) hben hpi hpt (by omega) (by omega)
    (by simpa using hlen)
  exact ⟨q, hq, hqt, by simpa using hqc⟩

/-- Witness for C6 at `N = 3` over three benign sessions. -/
theorem helios_c6_runs_exactly_n_witness :
    ∃ q, (runMain ⟨some 3, none, false⟩ .absent
        (List.replicate 3 (.completed 0 "ok" ""))).2 = .maxedOut q (save_progress q)
      ∧ q.tasks_completed = baseTasks .absent
      ∧ (sessionCount (runMain ⟨some 3, none, false⟩ .absent
          (List.replicate 3 (.completed 0 "ok" ""))).1 : Int) = 3 :=
  helios_c6_runs_exactly_n 3 none .absent (List.replicate 3 (.completed 0 "ok" ""))
    (by decide) rfl (by decide) (by decide)

/-- C7: `run_claude_session` is a total function of the subprocess outcome —
no exception reaches its caller: a timeout yields the failure exit code 1
with output exactly "TIMEOUT", any other spawn/runtime error yields exit
code 1 with the error description as output, and a completed process yields
its return code with stdout (plus delimited stderr); the enforced wall-clock
bound is 1800 seconds. -/
theorem helios_c7_executor_never_raises :
    (∀ r, ∃ ec out, run_claude_session r = (ec, out))
    ∧ run_claude_session .timedOut = (1, "TIMEOUT")
    ∧ (∀ msg, run_claude_session (.errored msg) = (1, msg))
    ∧ (∀ rc out err, run_claude_session (.completed rc out err)
        = (rc, renderOutput out err))
    ∧ (run_claude_session .timedOut).1 ≠ 0
    ∧ (∀ msg, (run_claude_session (.errored msg)).1 ≠ 0)
    ∧ SESSION_TIMEOUT_SECONDS = 1800 := by
  refine ⟨fun r => ⟨_, _, rfl⟩, rfl, fun msg => rfl, fun rc out err => rfl,
    by decide, fun msg => one_ne_zero, rfl⟩

/-- C8: a session outcome with a non-zero exit code (timeouts included)
leads to a pass that appends nothing to `tasks_completed`, sleeps exactly
double the base inter-session delay, and saves a state differing from the
pass's input only in `last_session` before continuing the loop. -/
theorem helios_c8_failure_backoff (task : Option String) (p : ProgressDict)
    (ins : String) (r : SubprocessResult) (now : String)
    (h : (run_claude_session r).1 ≠ 0) :
    sessionPhase task p ins r now =
      ([.session ins (run_claude_session r).1 (run_claude_session r).2,
        .saved { p with last_session := some (some now) },
        .slept (AUTO_CONTINUE_DELAY * 2)],
       .nextPass { p with last_session := some (some now) }
         (get_continuation_prompt { p with last_session := some (some now) })
         (save_progress { p with last_session := some (some now) }))
    ∧ ({ p with last_session := some (some now) } : ProgressDict).tasks_completed
        = p.tasks_completed
    ∧ ({ p with last_session := some (some now) } : ProgressDict).iterations
        = p.iterations
    ∧ ({ p with last_session := some (some now) } : ProgressDict).current_task
        = p.current_task
    ∧ ({ p with last_session := some (some now) } : ProgressDict).started_at
        = p.started_at
    ∧ ({ p with last_session := some (some now) } : ProgressDict).next_task
        = p.next_task :=
  ⟨sessionPhase_fail task p ins r now h, rfl, rfl, rfl, rfl, rfl⟩

/-- Witness for C8 at a timed-out session over the default state. -/
theorem helios_c8_failure_backoff_witness :
    sessionPhase none default_progress "go" .timedOut "1" =
      ([.session "go" (run_claude_session .timedOut).1 (run_claude_session .timedOut).2,
        .saved { default_progress with last_session := some (some "1") },
        .slept (AUTO_CONTINUE_DELAY * 2)],
       .nextPass { default_progress with last_session := some (some "1") }
         (get_continuation_prompt
           { default_progress with last_session := some (some "1") })
         (save_progress { default_progress with last_session := some (some "1") }))
    ∧ ({ default_progress with last_session := some (some "1") }
        : ProgressDict).tasks_completed = default_progress.tasks_completed
    ∧ ({ default_progress with last_session := some (some "1") }
        : ProgressDict).iterations = default_progress.iterations
    ∧ ({ default_progress with last_session := some (some "1") }
        : ProgressDict).current_task = default_progress.current_task
    ∧ ({ default_progress with last_session := some (some "1") }
        : ProgressDict).started_at = default_progress.started_at
    ∧ ({ default_progress with last_session := some (some "1") }
        : ProgressDict).next_task = default_progress.next_task :=
  helios_c8_failure_backoff none default_progress "go" .timedOut "1" (by decide)

/-- C9: `load_progress` hands back a parsed file exactly as stored without
filling in missing keys, so startup is not total over well-formed JSON
progress files: a record without `"started_at"` crashes `main` with an
uncaught `KeyError` at line 427 before the loop, and a record with
`"started_at"` but without `"iterations"` crashes with an uncaught
`KeyError` at line 447 — in both cases before any session runs (the event
list is empty). -/
theorem helios_c9_missing_keys_not_total :
    (∀ d, load_progress (.parsed d) = .ok d)
    ∧ (∀ (it : Option Int) (tc : Option (List String)) (ct : Option (Option String))
        (ls : Option (Option String)) (nt : Option JsonVal) (mi : Option Int)
        (t : Option String) (dr : Bool) (oracle : List SubprocessResult),
        runMain ⟨mi, t, dr⟩
          (.parsed { iterations := it, tasks_completed := tc, current_task := ct,
                     started_at := none, last_session := ls, next_task := nt }) oracle
          = ([], .startupCrash (.keyError "started_at")))
    ∧ (∀ (tc : Option (List String)) (ct : Option (Option String))
        (sa : Option String) (ls : Option (Option String)) (nt : Option JsonVal)
        (mi : Option Int) (t : Option String) (oracle : List SubprocessResult),
        ∃ p, runMain ⟨mi, t, false⟩
          (.parsed { iterations := none, tasks_completed := tc, current_task := ct,
                     started_at := some sa, last_session := ls, next_task := nt })
          oracle
          = ([], .crashed (.keyError "iterations") p (save_progress p))) := by
  refine ⟨fun d => rfl, ?_, ?_⟩
  · intro it tc ct ls nt mi t dr oracle
    simp [runMain, startup, load_progress]
  · intro tc ct sa ls nt mi t oracle
    obtain ⟨p, ins, hst, hpi⟩ := startup_parsed_ok t (nowStamp 0)
      { iterations := none, tasks_completed := tc, current_task := ct,
        started_at := some sa, last_session := ls, next_task := nt } sa rfl
    have hkey : prePass mi (0 + 1) p = .error (.keyError "iterations") := by
      simp [prePass, hpi]
    refine ⟨p, ?_⟩
    have hrm : runMain ⟨mi, t, false⟩
        (.parsed { iterations := none, tasks_completed := tc, current_task := ct,
                   started_at := some sa, last_session := ls, next_task := nt })
        oracle
        = runLoop mi t 0 p ins
          (.parsed { iterations := none, tasks_completed := tc, current_task := ct,
                     started_at := some sa, last_session := ls, next_task := nt })
          oracle := by
      simp [runMain, hst]
    rw [hrm]
    cases oracle with
    | nil => exact runLoop_nil_crash _ _ _ _ _ _ _ hkey
    | cons r rest => exact runLoop_cons_crash _ _ _ _ _ _ _ _ _ hkey

/-- C10: because the ceiling check requires a truthy configured value,
`--max-iterations 0` never trips the ceiling and the run is identical to a
run with no iteration limit at all. -/
theorem helios_c10_zero_means_unlimited (t : Option String) (dr : Bool)
    (disk : JsonFile) (oracle : List SubprocessResult) :
    runMain ⟨some 0, t, dr⟩ disk oracle = runMain ⟨none, t, dr⟩ disk oracle
    ∧ (∀ it : Int, ceiling_hit (some 0) it = false) := by
  constructor
  · cases hs : startup t (nowStamp 0) disk with
    | error e => simp [runMain, hs]
    | ok pr =>
      rcases pr with ⟨p0, ins0⟩
      cases dr with
      | true => simp [runMain, hs]
      | false => simp [runMain, hs, runLoop_zero_ceiling]
  · intro it
    rfl
